import Mathlib

/-!
Verification of the session-token issuance/verification core of the
repository (`src/lib` session module: `signSession` / `verifySession`,
a thin wrapper over the `jsonwebtoken` HS256 signed-token library), and of
the login/register/logout HTTP route handlers that consume it.

Modelling conventions:
* Machine time is a `Nat` of seconds since the epoch (the library works on
  `floor(Date.now()/1000)`).
* The payload of a token is a finite list of string-keyed primitive values
  (the program only ever signs flat records such as
  `{ userId: user.id, email: user.email }`).
* The third-party cryptographic and serialization internals
  (JSON + base64url encoding, HMAC-SHA256) are modelled symbolically:
  `encodePayload` is an executable injective encoding of the payload into
  the base64url character set, and `hmacSHA256` is an executable injective
  keyed tag (the standard symbolic idealization of a MAC: no collisions).
  Both produce strings free of the `.` separator, exactly as base64url
  segments are.
-/

set_option maxRecDepth 40000

/-- A primitive JSON value admissible in a token payload.  The payloads the
repository signs are flat string records; strings, numbers and booleans are
modelled. -/
inductive JVal where
  | jstr : String → JVal
  | jnum : Int → JVal
  | jbool : Bool → JVal
deriving DecidableEq

/-- A claims mapping: an ordered association list of string keys to
primitive values, modelling the payload object passed to `jwt.sign`. -/
abbrev Claims := List (String × JVal)

/-! ### Character-level codec

An executable injective encoding of payloads into the base64url alphabet,
standing for `base64url ∘ JSON.stringify` of the real library.  Digits are
written in base 32 with the RFC 4648 base32 alphabet. -/

/-- The character for one base-32 digit. -/
def digitChar (d : Nat) : Char :=
  if d < 26 then Char.ofNat ('A'.toNat + d) else Char.ofNat ('2'.toNat + (d - 26))

/-- Partial inverse of `digitChar`. -/
def digitVal (c : Char) : Option Nat :=
  if 'A' ≤ c ∧ c ≤ 'Z' then some (c.toNat - 'A'.toNat)
  else if '2' ≤ c ∧ c ≤ '7' then some (26 + (c.toNat - '2'.toNat))
  else none

/-- Little-endian base-32 digits of `n`, with explicit fuel so that the
definition is structurally recursive (and kernel-reducible). -/
def natDigits : Nat → Nat → List Nat
  | _, 0 => []
  | 0, _ + 1 => []
  | f + 1, n + 1 => ((n + 1) % 32) :: natDigits f ((n + 1) / 32)

/-- Value of a little-endian base-32 digit list. -/
def valOfDigits : List Nat → Nat
  | [] => 0
  | d :: ds => d + 32 * valOfDigits ds

/-- Greedily read base-32 digit characters. -/
def decDigits : List Char → List Nat × List Char
  | [] => ([], [])
  | c :: l =>
    match digitVal c with
    | some d => ((decDigits l).1.cons d, (decDigits l).2)
    | none => ([], c :: l)

/-- Encode a natural number: its base-32 digits followed by a `_` terminator. -/
def encNat (n : Nat) : List Char := (natDigits n n).map digitChar ++ ['_']

/-- Decode a natural number encoded by `encNat`. -/
def decNat (l : List Char) : Option (Nat × List Char) :=
  match decDigits l with
  | (ds, '_' :: r) => some (valOfDigits ds, r)
  | _ => none

/-- Encode one character by its code point. -/
def encChar (c : Char) : List Char := encNat c.toNat

/-- Decode one character. -/
def decChar (l : List Char) : Option (Char × List Char) :=
  match decNat l with
  | some (n, r) => some (Char.ofNat n, r)
  | none => none

/-- Encode a character list (string body), closed by a `-` terminator. -/
def encStrL (cs : List Char) : List Char := cs.flatMap encChar ++ ['-']

/-- Decode a string body, with fuel bounding the number of characters. -/
def decStrF : Nat → List Char → Option (List Char × List Char)
  | _, [] => none
  | f, c :: l =>
    if c = '-' then some ([], l)
    else
      match f with
      | 0 => none
      | f + 1 =>
        match decChar (c :: l) with
        | none => none
        | some (ch, r) =>
          match decStrF f r with
          | none => none
          | some (cs, r₂) => some (ch :: cs, r₂)

theorem digitVal_digitChar : ∀ d : Nat, d < 32 → digitVal (digitChar d) = some d := by
  decide

theorem digitChar_ne : ∀ d : Nat, d < 32 →
    digitChar d ≠ '_' ∧ digitChar d ≠ '-' ∧ digitChar d ≠ '.' := by
  decide

theorem digitVal_underscore : digitVal '_' = none := by decide

theorem natDigits_lt (f n : Nat) : ∀ d ∈ natDigits f n, d < 32 := by
  induction f generalizing n with
  | zero => cases n <;> simp [natDigits]
  | succ f ih =>
    cases n with
    | zero => simp [natDigits]
    | succ n =>
      simp only [natDigits, List.mem_cons]
      rintro d (rfl | hd)
      · omega
      · exact ih _ d hd

theorem valOfDigits_natDigits (f n : Nat) (h : n ≤ f) :
    valOfDigits (natDigits f n) = n := by
  induction f generalizing n with
  | zero =>
    interval_cases n
    simp [natDigits, valOfDigits]
  | succ f ih =>
    cases n with
    | zero => simp [natDigits, valOfDigits]
    | succ n =>
      have hdiv : (n + 1) / 32 ≤ f := by
        have := Nat.div_lt_self (Nat.succ_pos n) (by norm_num : 1 < 32)
        omega
      simp only [natDigits, valOfDigits, ih _ hdiv]
      omega

theorem decDigits_append (ds : List Nat) (r : List Char) (h : ∀ d ∈ ds, d < 32) :
    decDigits (ds.map digitChar ++ '_' :: r) = (ds, '_' :: r) := by
  induction ds with
  | nil => simp [decDigits, digitVal_underscore]
  | cons d ds ih =>
    have hd : d < 32 := h d (List.mem_cons_self ..)
    have hds : ∀ x ∈ ds, x < 32 := fun x hx => h x (List.mem_cons_of_mem _ hx)
    simp [decDigits, digitVal_digitChar d hd, ih hds]

theorem decNat_encNat (n : Nat) (r : List Char) :
    decNat (encNat n ++ r) = some (n, r) := by
  have h1 := decDigits_append (natDigits n n) r (natDigits_lt n n)
  simp [encNat, decNat, h1, valOfDigits_natDigits n n le_rfl]

theorem decChar_encChar (c : Char) (r : List Char) :
    decChar (encChar c ++ r) = some (c, r) := by
  simp [encChar, decChar, decNat_encNat, Char.ofNat_toNat]

theorem encChar_cons (c : Char) : ∃ hd tl, encChar c = hd :: tl ∧ hd ≠ '-' := by
  unfold encChar encNat
  cases h : natDigits c.toNat c.toNat with
  | nil => exact ⟨'_', [], by simp, by decide⟩
  | cons d ds =>
    refine ⟨digitChar d, ds.map digitChar ++ ['_'], by simp, ?_⟩
    have hd32 : d < 32 := natDigits_lt _ _ d (h ▸ List.mem_cons_self ..)
    exact (digitChar_ne d hd32).2.1

theorem encChar_length_pos (c : Char) : 1 ≤ (encChar c).length := by
  simp [encChar, encNat]

theorem length_le_encStrL (cs : List Char) : cs.length ≤ (encStrL cs).length := by
  induction cs with
  | nil => simp [encStrL]
  | cons c cs ih =>
    have h1 := encChar_length_pos c
    simp only [encStrL, List.flatMap_cons, List.length_append, List.length_cons] at *
    omega

theorem decStrF_encStrL (f : Nat) (cs : List Char) (r : List Char) (h : cs.length ≤ f) :
    decStrF f (encStrL cs ++ r) = some (cs, r) := by
  induction cs generalizing f r with
  | nil =>
    cases f <;> simp [encStrL, decStrF]
  | cons c cs ih =>
    obtain ⟨f, rfl⟩ : ∃ g, f = g + 1 := by
      refine ⟨f - 1, ?_⟩
      simp only [List.length_cons] at h
      omega
    obtain ⟨hd, tl, hct, hhd⟩ := encChar_cons c
    have hflat : encStrL (c :: cs) ++ r = hd :: (tl ++ (encStrL cs ++ r)) := by
      simp [encStrL, hct]
    have hchar : decChar (hd :: (tl ++ (encStrL cs ++ r))) = some (c, encStrL cs ++ r) := by
      have : hd :: (tl ++ (encStrL cs ++ r)) = encChar c ++ (encStrL cs ++ r) := by
        simp [hct]
      rw [this, decChar_encChar]
    have hrec : decStrF f (encStrL cs ++ r) = some (cs, r) := by
      apply ih
      simp only [List.length_cons] at h
      omega
    rw [hflat]
    simp [decStrF, if_neg hhd, hchar, hrec]

/-- Encode one primitive value, preceded by a one-character type tag. -/
def encVal : JVal → List Char
  | .jstr s => 'S' :: encStrL s.data
  | .jnum i => if 0 ≤ i then 'N' :: 'A' :: encNat i.toNat else 'N' :: 'B' :: encNat (-i).toNat
  | .jbool b => 'B' :: [cond b 'T' 'F']

/-- Decode one primitive value. -/
def decVal : List Char → Option (JVal × List Char)
  | 'S' :: l =>
    match decStrF l.length l with
    | some (cs, r) => some (.jstr (String.mk cs), r)
    | none => none
  | 'N' :: 'A' :: l =>
    match decNat l with
    | some (n, r) => some (.jnum (n : Int), r)
    | none => none
  | 'N' :: 'B' :: l =>
    match decNat l with
    | some (n, r) => some (.jnum (-(n : Int)), r)
    | none => none
  | 'B' :: 'T' :: l => some (.jbool true, l)
  | 'B' :: 'F' :: l => some (.jbool false, l)
  | _ => none

/-- Encode a claims mapping: a list of tagged key/value fields closed by
an end marker. -/
def encClaims : Claims → List Char
  | [] => ['E']
  | (k, v) :: tl => 'F' :: (encStrL k.data ++ (encVal v ++ encClaims tl))

/-- Decode a claims mapping, with fuel bounding the number of fields. -/
def decClaimsF : Nat → List Char → Option (Claims × List Char)
  | _, [] => none
  | f, c :: l =>
    if c = 'E' then some ([], l)
    else if c = 'F' then
      match f with
      | 0 => none
      | f + 1 =>
        match decStrF l.length l with
        | none => none
        | some (kcs, r₁) =>
          match decVal r₁ with
          | none => none
          | some (v, r₂) =>
            match decClaimsF f r₂ with
            | none => none
            | some (tl, r₃) => some ((String.mk kcs, v) :: tl, r₃)
    else none

theorem decVal_encVal (v : JVal) (r : List Char) :
    decVal (encVal v ++ r) = some (v, r) := by
  cases v with
  | jstr s =>
    have hlen : s.data.length ≤ (encStrL s.data ++ r).length := by
      have := length_le_encStrL s.data
      simp only [List.length_append]
      omega
    have h1 := decStrF_encStrL (encStrL s.data ++ r).length s.data r hlen
    simp only [List.length_append] at h1
    simp [encVal, decVal, h1]
  | jnum i =>
    by_cases h : 0 ≤ i
    · simp [encVal, if_pos h, decVal, decNat_encNat, Int.toNat_of_nonneg h]
    · have h2 : (0 : Int) ≤ -i := by omega
      have h3 : ((-i).toNat : Int) = -i := Int.toNat_of_nonneg h2
      simp [encVal, if_neg h, decVal, decNat_encNat, h3]
  | jbool b => cases b <;> simp [encVal, decVal]

theorem decClaimsF_encClaims (f : Nat) (C : Claims) (r : List Char)
    (h : C.length ≤ f) :
    decClaimsF f (encClaims C ++ r) = some (C, r) := by
  induction C generalizing f r with
  | nil => cases f <;> simp [encClaims, decClaimsF]
  | cons kv tl ih =>
    obtain ⟨k, v⟩ := kv
    obtain ⟨f, rfl⟩ : ∃ g, f = g + 1 := by
      refine ⟨f - 1, ?_⟩
      simp only [List.length_cons] at h
      omega
    have hflat : encClaims ((k, v) :: tl) ++ r =
        'F' :: (encStrL k.data ++ (encVal v ++ (encClaims tl ++ r))) := by
      simp [encClaims]
    have hlen : k.data.length ≤ (encStrL k.data ++ (encVal v ++ (encClaims tl ++ r))).length := by
      have := length_le_encStrL k.data
      simp only [List.length_append]
      omega
    have hkey := decStrF_encStrL (encStrL k.data ++ (encVal v ++ (encClaims tl ++ r))).length
      k.data (encVal v ++ (encClaims tl ++ r)) hlen
    have hval := decVal_encVal v (encClaims tl ++ r)
    have hrec : decClaimsF f (encClaims tl ++ r) = some (tl, r) := by
      apply ih
      simp only [List.length_cons] at h
      omega
    simp only [List.length_append] at hkey
    rw [hflat]
    simp [decClaimsF, hkey, hval, hrec]

theorem encNat_no_dot (n : Nat) : '.' ∉ encNat n := by
  intro hmem
  simp only [encNat, List.mem_append, List.mem_map, List.mem_singleton] at hmem
  rcases hmem with ⟨d, hd, hEq⟩ | hEq
  · exact (digitChar_ne d (natDigits_lt n n d hd)).2.2 hEq
  · exact absurd hEq (by decide)

theorem encStrL_no_dot (cs : List Char) : '.' ∉ encStrL cs := by
  intro hmem
  simp only [encStrL, List.mem_append, List.mem_flatMap, List.mem_singleton] at hmem
  rcases hmem with ⟨c, _, hc⟩ | hEq
  · exact encNat_no_dot c.toNat (by simpa [encChar] using hc)
  · exact absurd hEq (by decide)

theorem encVal_no_dot (v : JVal) : '.' ∉ encVal v := by
  intro hmem
  cases v with
  | jstr s =>
    simp only [encVal, List.mem_cons] at hmem
    rcases hmem with hEq | hc
    · exact absurd hEq (by decide)
    · exact encStrL_no_dot s.data hc
  | jnum i =>
    by_cases h : 0 ≤ i
    · simp only [encVal, if_pos h, List.mem_cons] at hmem
      rcases hmem with hEq | hEq | hc
      · exact absurd hEq (by decide)
      · exact absurd hEq (by decide)
      · exact encNat_no_dot _ hc
    · simp only [encVal, if_neg h, List.mem_cons] at hmem
      rcases hmem with hEq | hEq | hc
      · exact absurd hEq (by decide)
      · exact absurd hEq (by decide)
      · exact encNat_no_dot _ hc
  | jbool b => cases b <;> simp only [encVal] at hmem <;> exact absurd hmem (by decide)

theorem encClaims_no_dot (C : Claims) : '.' ∉ encClaims C := by
  induction C with
  | nil => simp only [encClaims]; decide
  | cons kv tl ih =>
    obtain ⟨k, v⟩ := kv
    intro hmem
    simp only [encClaims, List.mem_cons, List.mem_append] at hmem
    rcases hmem with hEq | hc | hc | hc
    · exact absurd hEq (by decide)
    · exact encStrL_no_dot k.data hc
    · exact encVal_no_dot v hc
    · exact ih hc

/-! ### Tokens: symbolic HMAC, dot-separated segments -/

/-- Symbolic model of HMAC-SHA256 of a message under a secret key: an
executable, injective keyed tag over the base64url character set (the
standard idealization of a collision-free MAC). -/
def hmacSHA256 (secret message : String) : String :=
  String.mk ('H' :: (encStrL secret.data ++ encStrL message.data))

theorem hmacSHA256_no_dot (secret message : String) :
    '.' ∉ (hmacSHA256 secret message).data := by
  intro hmem
  simp only [hmacSHA256, List.mem_cons, List.mem_append] at hmem
  rcases hmem with hEq | hc | hc
  · exact absurd hEq (by decide)
  · exact encStrL_no_dot secret.data hc
  · exact encStrL_no_dot message.data hc

theorem encStrL_inj {a b : List Char} (h : encStrL a = encStrL b) : a = b := by
  have ha := decStrF_encStrL (encStrL a).length a [] (length_le_encStrL a)
  have hb := decStrF_encStrL (encStrL b).length b [] (length_le_encStrL b)
  rw [List.append_nil] at ha hb
  rw [h] at ha
  have hpair := ha.symm.trans hb
  simp only [Option.some.injEq, Prod.mk.injEq] at hpair
  exact hpair.1

theorem hmacSHA256_inj {s₁ m₁ s₂ m₂ : String}
    (h : hmacSHA256 s₁ m₁ = hmacSHA256 s₂ m₂) : s₁ = s₂ ∧ m₁ = m₂ := by
  have hdata : ('H' :: (encStrL s₁.data ++ encStrL m₁.data)) =
      ('H' :: (encStrL s₂.data ++ encStrL m₂.data)) := congrArg String.data h
  have htail : encStrL s₁.data ++ encStrL m₁.data =
      encStrL s₂.data ++ encStrL m₂.data := by
    injection hdata
  have h₁ := decStrF_encStrL (encStrL s₁.data ++ encStrL m₁.data).length s₁.data
    (encStrL m₁.data) (by simp only [List.length_append]; have := length_le_encStrL s₁.data; omega)
  have h₂ := decStrF_encStrL (encStrL s₂.data ++ encStrL m₂.data).length s₂.data
    (encStrL m₂.data) (by simp only [List.length_append]; have := length_le_encStrL s₂.data; omega)
  rw [htail] at h₁
  have hpair := h₁.symm.trans h₂
  simp only [Option.some.injEq, Prod.mk.injEq] at hpair
  exact ⟨String.ext hpair.1, String.ext (encStrL_inj hpair.2)⟩

/-- Split a character list at every `.`, as `token.split` does with the
JWT segment separator. -/
def splitDots : List Char → List (List Char)
  | [] => [[]]
  | c :: cs =>
    if c = '.' then [] :: splitDots cs
    else
      match splitDots cs with
      | [] => [[c]]
      | g :: gs => (c :: g) :: gs

theorem splitDots_no_dot (cs : List Char) (h : '.' ∉ cs) : splitDots cs = [cs] := by
  induction cs with
  | nil => rfl
  | cons c cs ih =>
    have hc : c ≠ '.' := fun hEq => h (hEq ▸ List.mem_cons_self ..)
    have hcs : '.' ∉ cs := fun hin => h (List.mem_cons_of_mem _ hin)
    simp [splitDots, if_neg hc, ih hcs]

theorem splitDots_append (a r : List Char) (h : '.' ∉ a) :
    splitDots (a ++ '.' :: r) = a :: splitDots r := by
  induction a with
  | nil => simp [splitDots]
  | cons c a ih =>
    have hc : c ≠ '.' := fun hEq => h (hEq ▸ List.mem_cons_self ..)
    have ha : '.' ∉ a := fun hin => h (List.mem_cons_of_mem _ hin)
    simp [splitDots, if_neg hc, ih ha]

/-! ### The session-token module

Model of the repository's session library:

  const SECRET = process.env.BETTER_AUTH_SECRET ?? process.env.SESSION_SECRET ?? "dev-secret";
  export function signSession(payload, opts?) {
    return jwt.sign(payload, SECRET, { expiresIn: "7d", ...(opts ?? {}) });
  }
  export function verifySession(token) {
    try { return jwt.verify(token, SECRET); } catch (e) { return null; }
  }

Fidelity notes on the `jsonwebtoken` library behaviour that the model
reproduces:
* `jwt.sign` first validates that the registered claims `iat`, `exp` and
  `nbf` are numbers when the payload carries them, and refuses a payload
  that already has an `exp` property while `expiresIn` is set - which the
  wrapper's `"7d"` default makes always the case.  Thrown errors are the
  `.error` branch of the result (the surrounding route's `catch` sees
  them).
* The timestamp basis is `payload.iat || floor(Date.now()/1000)`: a
  truthy (nonzero) payload-supplied `iat` anchors both the stamped `iat`
  and the computed `exp = timestamp + span`, making the token independent
  of the call clock; `iat: 0` is falsy and falls back to the clock.
* `jwt.verify` checks `nbf` before `exp`; each must be a number when
  present (a present non-numeric value is an error, hence `null`), `nbf`
  must not be in the future and the clock must be strictly before `exp`.
* Of the options object only the `expiresIn` member is modelled (the
  wrapper's callers pass nothing else); the protected header's content is
  abstracted: issued tokens carry the fixed HS256 header and the
  signature covers the header segment. -/

/-- The base64url-encoded JWS protected header for HS256 produced by the
library. -/
def JWT_HEADER : String := "eyJhbGciOiJIUzI1NiIsInR5cCI6IkpXVCJ9"

/-- Encode a payload into a base64url token segment (model of
base64url of the JSON serialization). -/
def encodePayload (C : Claims) : String := String.mk (encClaims C)

/-- Decode a base64url token segment back to a payload; the whole segment
must be consumed. -/
def decodePayload (s : String) : Option Claims :=
  match decClaimsF s.data.length s.data with
  | some (C, []) => some C
  | _ => none

/-- The per-call options argument of `jwt.sign`; only `expiresIn` is used
by this program.  A `none` field models an options object without that
property. -/
structure SignOptions where
  expiresIn : Option Nat
deriving DecidableEq

/-- Seconds in the default validity window: the `expiresIn: "7d"` default. -/
def DEFAULT_EXPIRES_IN : Nat := 604800

/-- The validity window after merging `{ expiresIn: "7d", ...(opts ?? {}) }`:
a per-call `expiresIn` overrides the 7-day default. -/
def effectiveExpiresIn : Option SignOptions → Nat
  | none => DEFAULT_EXPIRES_IN
  | some o =>
    match o.expiresIn with
    | none => DEFAULT_EXPIRES_IN
    | some n => n

/-- JavaScript property assignment `obj[k] = v` on the ordered field
list: replaces the value of an existing key in place, appends the pair
otherwise. -/
def setKey : Claims → String → JVal → Claims
  | [], k, v => [(k, v)]
  | (k₀, v₀) :: tl, k, v =>
    if k₀ = k then (k₀, v) :: tl else (k₀, v₀) :: setKey tl k v

/-- The registered-claim validation of `jwt.sign`: `iat`, `exp` and `nbf`
must be numbers when present. -/
def isNumClaim : Option JVal → Bool
  | none => true
  | some (JVal.jnum _) => true
  | some _ => false

/-- Assemble and sign a serialized payload: the
`header.payload.signature` string over a given full payload. -/
def tokenOf (secret : String) (full : Claims) : String :=
  (JWT_HEADER ++ "." ++ encodePayload full) ++ "." ++
    hmacSHA256 secret (JWT_HEADER ++ "." ++ encodePayload full)

/-- Model of `signSession`, i.e. `jwt.sign(payload, SECRET,
{ expiresIn: "7d", ...(opts ?? {}) })`: validate the registered claims,
refuse a payload that already carries `exp` (the merged options always
set `expiresIn`), anchor the timestamp at a truthy payload-supplied
`iat`, stamp `iat` and `exp`, serialize and sign. -/
def signSession (secret : String) (payload : Claims) (now : Nat)
    (opts : Option SignOptions) : Except String String :=
  if isNumClaim (payload.lookup "iat") then
    if isNumClaim (payload.lookup "exp") then
      if isNumClaim (payload.lookup "nbf") then
        if (payload.lookup "exp").isSome then
          .error "Bad \"options.expiresIn\" option the payload already has an \"exp\" property."
        else
          let timestamp : Int :=
            match payload.lookup "iat" with
            | some (JVal.jnum i) => if i = 0 then (now : Int) else i
            | _ => (now : Int)
          let stamped := setKey payload "iat" (JVal.jnum timestamp)
          let fullPayload := setKey stamped "exp"
            (JVal.jnum (timestamp + (effectiveExpiresIn opts : Int)))
          .ok (tokenOf secret fullPayload)
      else .error "\"nbf\" should be a number of seconds"
    else .error "\"exp\" should be a number of seconds"
  else .error "\"iat\" should be a number of seconds"

/-- The `exp` check of `jwt.verify`: when the payload carries `exp` it
must be a number and the clock strictly before it. -/
def checkExp (C : Claims) (now : Nat) : Option Claims :=
  match C.lookup "exp" with
  | some (JVal.jnum e) => if (now : Int) < e then some C else none
  | some _ => none
  | none => some C

/-- The `nbf` check of `jwt.verify`, run before the `exp` check: when the
payload carries `nbf` it must be a number not in the future. -/
def checkNbf (C : Claims) (now : Nat) : Option Claims :=
  match C.lookup "nbf" with
  | some (JVal.jnum nb) => if (now : Int) < nb then none else checkExp C now
  | some _ => none
  | none => checkExp C now

/-- Model of `verifySession`: split on dots, recompute the signature over
`header.payload` and compare, decode the payload, then run the `nbf` and
`exp` claim checks; every failure yields `none` (the `try/catch` of the
source collapses all library errors to `null`). -/
def verifySession (secret : String) (token : String) (now : Nat) : Option Claims :=
  match splitDots token.data with
  | [h, p, s] =>
    if hmacSHA256 secret (String.mk h ++ "." ++ String.mk p) = String.mk s then
      match decodePayload (String.mk p) with
      | none => none
      | some C => checkNbf C now
    else none
  | _ => none

theorem str_data_append (s t : String) : (s ++ t).data = s.data ++ t.data := rfl

theorem string_mk_data (s : String) : String.mk s.data = s := rfl

theorem dot_data : ("." : String).data = ['.'] := rfl

theorem length_le_encClaims (C : Claims) : C.length ≤ (encClaims C).length := by
  induction C with
  | nil => simp [encClaims]
  | cons kv tl ih =>
    obtain ⟨k, v⟩ := kv
    simp only [encClaims, List.length_cons, List.length_append]
    omega

theorem decodePayload_encodePayload (C : Claims) :
    decodePayload (encodePayload C) = some C := by
  have h := decClaimsF_encClaims (encClaims C).length C [] (length_le_encClaims C)
  rw [List.append_nil] at h
  simp [decodePayload, encodePayload, h]

theorem lookup_append_none {α β : Type} [BEq α] (l₁ l₂ : List (α × β)) (k : α)
    (h : l₁.lookup k = none) : (l₁ ++ l₂).lookup k = l₂.lookup k := by
  induction l₁ with
  | nil => simp
  | cons kv tl ih =>
    obtain ⟨k₀, v₀⟩ := kv
    simp only [List.lookup, List.cons_append] at h ⊢
    cases hbeq : k == k₀ with
    | true => simp [hbeq] at h
    | false => simp only [hbeq] at h ⊢; exact ih h

theorem lookup_setKey_ne (C : Claims) (k k' : String) (v : JVal) (h : k' ≠ k) :
    (setKey C k v).lookup k' = C.lookup k' := by
  induction C with
  | nil =>
    have hbeq : (k' == k) = false := by
      simpa using h
    simp [setKey, List.lookup, hbeq]
  | cons kv tl ih =>
    obtain ⟨k₀, v₀⟩ := kv
    by_cases hk : k₀ = k
    · subst hk
      have hbeq : (k' == k₀) = false := by
        simpa using h
      simp [setKey, List.lookup, hbeq]
    · simp only [setKey, if_neg hk, List.lookup]
      cases hbeq : k' == k₀ with
      | true => rfl
      | false => exact ih

theorem setKey_of_lookup_none (C : Claims) (k : String) (v : JVal)
    (h : C.lookup k = none) : setKey C k v = C ++ [(k, v)] := by
  induction C with
  | nil => rfl
  | cons kv tl ih =>
    obtain ⟨k₀, v₀⟩ := kv
    simp only [List.lookup] at h
    cases hbeq : k == k₀ with
    | true => rw [hbeq] at h; cases h
    | false =>
      rw [hbeq] at h
      have hne : k₀ ≠ k := by
        intro hEq
        rw [hEq] at hbeq
        simp at hbeq
      simp [setKey, if_neg hne, ih h]

theorem splitDots_tokenOf (secret : String) (full : Claims) :
    splitDots (tokenOf secret full).data =
      [JWT_HEADER.data, encClaims full,
        (hmacSHA256 secret (JWT_HEADER ++ "." ++ encodePayload full)).data] := by
  have hnodotH : '.' ∉ JWT_HEADER.data := by decide
  have hdata : (tokenOf secret full).data =
      JWT_HEADER.data ++ '.' :: (encClaims full ++ '.' ::
        (hmacSHA256 secret (JWT_HEADER ++ "." ++ encodePayload full)).data) := by
    simp [tokenOf, str_data_append, dot_data, encodePayload]
  rw [hdata, splitDots_append _ _ hnodotH,
    splitDots_append _ _ (encClaims_no_dot full),
    splitDots_no_dot _ (hmacSHA256_no_dot secret (JWT_HEADER ++ "." ++ encodePayload full))]

theorem verify_tokenOf (secret : String) (full : Claims) (now : Nat) :
    verifySession secret (tokenOf secret full) now = checkNbf full now := by
  simp only [verifySession, splitDots_tokenOf, string_mk_data]
  have hmk : String.mk (encClaims full) = encodePayload full := rfl
  rw [hmk, if_pos rfl, decodePayload_encodePayload]

theorem verify_tokenOf_wrong_secret (secret secret' : String) (full : Claims)
    (now : Nat) (hne : secret ≠ secret') :
    verifySession secret (tokenOf secret' full) now = none := by
  have hcond : hmacSHA256 secret (JWT_HEADER ++ "." ++ encodePayload full) ≠
      hmacSHA256 secret' (JWT_HEADER ++ "." ++ encodePayload full) := by
    intro hEq
    exact hne (hmacSHA256_inj hEq).1
  simp only [verifySession, splitDots_tokenOf, string_mk_data]
  have hmk : String.mk (encClaims full) = encodePayload full := rfl
  rw [hmk, if_neg hcond]

theorem signSession_fresh (secret : String) (C : Claims) (now : Nat)
    (opts : Option SignOptions) (hiat : C.lookup "iat" = none)
    (hexp : C.lookup "exp" = none) (hnbf : C.lookup "nbf" = none) :
    signSession secret C now opts =
      .ok (tokenOf secret (C ++
        [("iat", JVal.jnum (now : Int)),
         ("exp", JVal.jnum ((now : Int) + (effectiveExpiresIn opts : Int)))])) := by
  have hstamp : setKey C "iat" (JVal.jnum (now : Int)) =
      C ++ [("iat", JVal.jnum (now : Int))] :=
    setKey_of_lookup_none C _ _ hiat
  have hexp2 : (C ++ [("iat", JVal.jnum (now : Int))]).lookup "exp" = none := by
    rw [lookup_append_none _ _ _ hexp]
    rfl
  have hfull : setKey (C ++ [("iat", JVal.jnum (now : Int))]) "exp"
      (JVal.jnum ((now : Int) + (effectiveExpiresIn opts : Int))) =
      C ++ [("iat", JVal.jnum (now : Int)),
            ("exp", JVal.jnum ((now : Int) + (effectiveExpiresIn opts : Int)))] := by
    rw [setKey_of_lookup_none _ _ _ hexp2, List.append_assoc]
    rfl
  simp only [signSession, hiat, hexp, hnbf, isNumClaim, Option.isSome_none, if_true,
    Bool.false_eq_true, if_false, hstamp, hfull]

theorem signSession_ok_shape {secret : String} {C : Claims} {now : Nat}
    {opts : Option SignOptions} {tok : String}
    (h : signSession secret C now opts = .ok tok) :
    ∃ full : Claims, tok = tokenOf secret full := by
  unfold signSession at h
  split at h
  · split at h
    · split at h
      · split at h
        · exact Except.noConfusion h
        · exact ⟨_, by injection h with h2; exact h2.symm⟩
      · exact Except.noConfusion h
    · exact Except.noConfusion h
  · exact Except.noConfusion h

theorem signSession_isOk (secret : String) (C : Claims) (now : Nat)
    (opts : Option SignOptions)
    (hiat : isNumClaim (C.lookup "iat") = true)
    (hnbf : isNumClaim (C.lookup "nbf") = true)
    (hexp : C.lookup "exp" = none) :
    ∃ tok : String, signSession secret C now opts = .ok tok := by
  unfold signSession
  rw [hiat, hexp, hnbf]
  rw [if_pos rfl, if_pos rfl, if_pos (show isNumClaim none = true from rfl),
    if_neg (by simp)]
  exact ⟨_, rfl⟩

/-- The expiry timestamp embedded in a token's payload segment, when the
payload decodes and carries a numeric `exp` claim. -/
def embeddedExp (token : String) : Option Int :=
  match splitDots token.data with
  | [_, p, _] =>
    match decodePayload (String.mk p) with
    | some C =>
      match C.lookup "exp" with
      | some (JVal.jnum e) => some e
      | _ => none
    | none => none
  | _ => none

theorem embeddedExp_tokenOf (secret : String) (full : Claims) :
    embeddedExp (tokenOf secret full) =
      match full.lookup "exp" with
      | some (JVal.jnum e) => some e
      | _ => none := by
  simp only [embeddedExp, splitDots_tokenOf]
  have hmk : String.mk (encClaims full) = encodePayload full := rfl
  rw [hmk, decodePayload_encodePayload]

/-- Verifying a freshly issued token (claims free of registered claims,
`iat`/`exp` appended by `signSession`) reduces to the clock test against
the embedded expiry. -/
theorem verify_fresh (secret : String) (C : Claims) (now : Nat)
    (opts : Option SignOptions) (now' : Nat) (hexp : C.lookup "exp" = none)
    (hnbf : C.lookup "nbf" = none) :
    verifySession secret (tokenOf secret (C ++
        [("iat", JVal.jnum (now : Int)),
         ("exp", JVal.jnum ((now : Int) + (effectiveExpiresIn opts : Int)))])) now' =
      if now' < now + effectiveExpiresIn opts then
        some (C ++ [("iat", JVal.jnum (now : Int)),
                    ("exp", JVal.jnum ((now : Int) + (effectiveExpiresIn opts : Int)))])
      else none := by
  rw [verify_tokenOf]
  have hnbf2 : (C ++ [("iat", JVal.jnum (now : Int)),
      ("exp", JVal.jnum ((now : Int) + (effectiveExpiresIn opts : Int)))]).lookup "nbf" =
      none := by
    rw [lookup_append_none _ _ _ hnbf]
    rfl
  have hexp2 : (C ++ [("iat", JVal.jnum (now : Int)),
      ("exp", JVal.jnum ((now : Int) + (effectiveExpiresIn opts : Int)))]).lookup "exp" =
      some (JVal.jnum ((now : Int) + (effectiveExpiresIn opts : Int))) := by
    rw [lookup_append_none _ _ _ hexp]
    rfl
  simp only [checkNbf, checkExp, hnbf2, hexp2]
  by_cases hlt : now' < now + effectiveExpiresIn opts
  · have hc : (now' : Int) < (now : Int) + (effectiveExpiresIn opts : Int) := by
      exact_mod_cast hlt
    rw [if_pos hlt]
    simp [hc]
  · have hc : ¬ (now' : Int) < (now : Int) + (effectiveExpiresIn opts : Int) := by
      exact_mod_cast hlt
    rw [if_neg hlt]
    simp [hc]

/-- A token whose embedded expiry has passed verifies to `none`
regardless of how it was produced. -/
theorem verify_expired (secret token : String) (now : Nat) (e : Int)
    (hemb : embeddedExp token = some e) (hle : e ≤ (now : Int)) :
    verifySession secret token now = none := by
  unfold embeddedExp at hemb
  unfold verifySession
  rcases hsp : splitDots token.data with _ | ⟨h, _ | ⟨p, _ | ⟨s, _ | ⟨x, rest⟩⟩⟩⟩
  · rfl
  · rfl
  · rfl
  · rw [hsp] at hemb
    replace hemb : (match decodePayload (String.mk p) with
      | some C =>
        match C.lookup "exp" with
        | some (JVal.jnum e₀) => some e₀
        | _ => none
      | none => none) = some e := hemb
    show (if hmacSHA256 secret (String.mk h ++ "." ++ String.mk p) = String.mk s then
        (match decodePayload (String.mk p) with
         | none => none
         | some C => checkNbf C now) else none) = none
    by_cases hsig : hmacSHA256 secret (String.mk h ++ "." ++ String.mk p) = String.mk s
    · rw [if_pos hsig]
      cases hdec : decodePayload (String.mk p) with
      | none => rfl
      | some C =>
        rw [hdec] at hemb
        replace hemb : (match C.lookup "exp" with
          | some (JVal.jnum e₀) => some e₀
          | _ => none) = some e := hemb
        show checkNbf C now = none
        cases hlook : C.lookup "exp" with
        | none => rw [hlook] at hemb; cases hemb
        | some v =>
          cases v with
          | jstr sv => rw [hlook] at hemb; cases hemb
          | jbool bv => rw [hlook] at hemb; cases hemb
          | jnum e₀ =>
            rw [hlook] at hemb
            replace hemb : some e₀ = some e := hemb
            obtain rfl : e₀ = e := by simpa using hemb
            have hexpchk : checkExp C now = none := by
              simp only [checkExp, hlook]
              rw [if_neg (by omega)]
            unfold checkNbf
            cases hnb : C.lookup "nbf" with
            | none => exact hexpchk
            | some w =>
              cases w with
              | jnum nb =>
                show (if (now : Int) < nb then none else checkExp C now) = none
                by_cases ht : (now : Int) < nb
                · rw [if_pos ht]
                · rw [if_neg ht]
                  exact hexpchk
              | jstr sv => rfl
              | jbool bv => rfl
    · rw [if_neg hsig]
  · rfl

instance : DecidableEq (Except String String) := fun a b =>
  match a, b with
  | .ok x, .ok y =>
    if h : x = y then .isTrue (h ▸ rfl)
    else .isFalse (fun hc => h (Except.ok.inj hc))
  | .error x, .error y =>
    if h : x = y then .isTrue (h ▸ rfl)
    else .isFalse (fun hc => h (Except.error.inj hc))
  | .ok _, .error _ => .isFalse Except.noConfusion
  | .error _, .ok _ => .isFalse Except.noConfusion

/-! ### Claims about the token core -/

/-- C1 counterexample: the claim as stated fails, because `jwt.sign`
appends `iat` and `exp` to the payload: at the concrete claims mapping
`[("userId", "u1")]`, verification before expiry succeeds yet does not
return a mapping equal to the input. -/
theorem c1_counterexample :
    signSession "dev-secret" [("userId", JVal.jstr "u1")] 0 none =
      .ok (tokenOf "dev-secret" [("userId", JVal.jstr "u1"),
        ("iat", JVal.jnum 0), ("exp", JVal.jnum 604800)]) ∧
    verifySession "dev-secret" (tokenOf "dev-secret" [("userId", JVal.jstr "u1"),
        ("iat", JVal.jnum 0), ("exp", JVal.jnum 604800)]) 1 =
      some [("userId", JVal.jstr "u1"), ("iat", JVal.jnum 0),
            ("exp", JVal.jnum 604800)] ∧
    verifySession "dev-secret" (tokenOf "dev-secret" [("userId", JVal.jstr "u1"),
        ("iat", JVal.jnum 0), ("exp", JVal.jnum 604800)]) 1 ≠
      some [("userId", JVal.jstr "u1")] := by
  refine ⟨by decide, by decide, by decide⟩

/-- C1 (amended): for every claims mapping C carrying none of the
registered `iat`/`exp`/`nbf` claims (as the payloads this program signs
do), issuance succeeds and verifying the token before its expiry elapses
returns C extended by exactly the appended `iat` and `exp` timestamps (so
it agrees with C on every key of C). -/
theorem c1_roundtrip (secret : String) (C : Claims) (now : Nat)
    (opts : Option SignOptions) (now' : Nat)
    (hiat : C.lookup "iat" = none) (hexp : C.lookup "exp" = none)
    (hnbf : C.lookup "nbf" = none)
    (hlt : now' < now + effectiveExpiresIn opts) :
    ∃ tok, signSession secret C now opts = .ok tok ∧
      verifySession secret tok now' =
        some (C ++ [("iat", JVal.jnum (now : Int)),
                    ("exp", JVal.jnum ((now : Int) + (effectiveExpiresIn opts : Int)))]) := by
  refine ⟨_, signSession_fresh secret C now opts hiat hexp hnbf, ?_⟩
  rw [verify_fresh secret C now opts now' hexp hnbf, if_pos hlt]

/-- C1 witness: the amended round trip at a concrete claims mapping. -/
theorem c1_roundtrip_witness :
    (List.lookup "iat" ([("email", JVal.jstr "a@b.com")] : Claims) = none) ∧
    (List.lookup "exp" ([("email", JVal.jstr "a@b.com")] : Claims) = none) ∧
    (List.lookup "nbf" ([("email", JVal.jstr "a@b.com")] : Claims) = none) ∧
    (200 < 100 + effectiveExpiresIn none) ∧
    ∃ tok, signSession "dev-secret" [("email", JVal.jstr "a@b.com")] 100 none = .ok tok ∧
      verifySession "dev-secret" tok 200 =
        some [("email", JVal.jstr "a@b.com"), ("iat", JVal.jnum 100),
              ("exp", JVal.jnum 604900)] := by
  refine ⟨by decide, by decide, by decide, by decide, ?_⟩
  obtain ⟨tok, hsign, hver⟩ := c1_roundtrip "dev-secret"
    [("email", JVal.jstr "a@b.com")] 100 none 200 (by decide) (by decide) (by decide)
    (by decide)
  refine ⟨tok, hsign, ?_⟩
  simpa [effectiveExpiresIn, DEFAULT_EXPIRES_IN] using hver

/-- C3: every failure mode of verification collapses to the single
invalid result `none` (the model of the `null` returned by the
`try/catch`): the empty string, a string with fewer than three
dot-separated segments, a token signed under a different secret, and a
token whose embedded expiry has passed. -/
theorem c3_failure_modes :
    (∀ secret : String, ∀ now : Nat, verifySession secret "" now = none) ∧
    (∀ secret token : String, ∀ now : Nat, (splitDots token.data).length < 3 →
      verifySession secret token now = none) ∧
    (∀ secret secret' tok : String, ∀ C : Claims, ∀ now : Nat,
      ∀ opts : Option SignOptions, ∀ now' : Nat, secret ≠ secret' →
      signSession secret' C now opts = .ok tok →
      verifySession secret tok now' = none) ∧
    (∀ secret token : String, ∀ now : Nat, ∀ e : Int,
      embeddedExp token = some e → e ≤ (now : Int) →
      verifySession secret token now = none) := by
  refine ⟨fun secret now => rfl, ?_, ?_, ?_⟩
  · intro secret token now hlen
    unfold verifySession
    rcases hsp : splitDots token.data with _ | ⟨h, _ | ⟨p, _ | ⟨s, _ | ⟨x, rest⟩⟩⟩⟩
    · rfl
    · rfl
    · rfl
    · rw [hsp] at hlen
      simp at hlen
    · rfl
  · intro secret secret' tok C now opts now' hne hok
    obtain ⟨full, rfl⟩ := signSession_ok_shape hok
    exact verify_tokenOf_wrong_secret secret secret' full now' hne
  · intro secret token now e hemb hle
    exact verify_expired secret token now e hemb hle

/-- C3 witness: each failure mode at a concrete input. -/
theorem c3_failure_modes_witness :
    verifySession "dev-secret" "" 0 = none ∧
    verifySession "dev-secret" "abc" 0 = none ∧
    (signSession "other-secret" [("userId", JVal.jstr "u1")] 0 none =
      .ok (tokenOf "other-secret" [("userId", JVal.jstr "u1"),
        ("iat", JVal.jnum 0), ("exp", JVal.jnum 604800)])) ∧
    verifySession "dev-secret" (tokenOf "other-secret" [("userId", JVal.jstr "u1"),
      ("iat", JVal.jnum 0), ("exp", JVal.jnum 604800)]) 1 = none ∧
    (embeddedExp (tokenOf "dev-secret" [("userId", JVal.jstr "u1"),
      ("iat", JVal.jnum 0), ("exp", JVal.jnum 604800)]) = some 604800) ∧
    verifySession "dev-secret" (tokenOf "dev-secret" [("userId", JVal.jstr "u1"),
      ("iat", JVal.jnum 0), ("exp", JVal.jnum 604800)]) 604800 = none := by
  refine ⟨c3_failure_modes.1 "dev-secret" 0,
    c3_failure_modes.2.1 "dev-secret" "abc" 0 (by decide),
    by decide,
    c3_failure_modes.2.2.1 "dev-secret" "other-secret"
      (tokenOf "other-secret" [("userId", JVal.jstr "u1"),
        ("iat", JVal.jnum 0), ("exp", JVal.jnum 604800)])
      [("userId", JVal.jstr "u1")] 0 none 1 (by decide) (by decide),
    by decide,
    c3_failure_modes.2.2.2 "dev-secret"
      (tokenOf "dev-secret" [("userId", JVal.jstr "u1"),
        ("iat", JVal.jnum 0), ("exp", JVal.jnum 604800)])
      604800 604800 (by decide) (by decide)⟩

/-- The embedded expiry of the token issued for given claims, clock and
options, when issuance succeeds. -/
def signedTokenExp (secret : String) (C : Claims) (now : Nat)
    (opts : Option SignOptions) : Option Int :=
  match signSession secret C now opts with
  | .ok tok => embeddedExp tok
  | .error _ => none

/-- C4 counterexample: a payload that pins `iat` anchors the expiry at
that `iat`, not at the issuance clock: issued at time 5000000, the
embedded expiry is 999 + 604800, not 5000000 + 604800. -/
theorem c4_counterexample :
    (signSession "dev-secret" [("iat", JVal.jnum 999)] 5000000 none).isOk = true ∧
    signedTokenExp "dev-secret" [("iat", JVal.jnum 999)] 5000000 none =
      some 605799 ∧
    some (605799 : Int) ≠ some ((5000000 : Int) + 604800) := by
  refine ⟨by decide, by decide, by decide⟩

/-- C4 (amended): for a payload without registered `iat`/`exp`/`nbf`
claims (as the payloads this program signs are), the issued token's
embedded expiry is the issuance time plus the validity window: 7 days
(604800 seconds) by default, and a per-call `expiresIn` n gives n; a
payload-supplied nonzero numeric `iat` anchors the window there
instead. -/
theorem c4_expiry (secret : String) (C : Claims) (now : Nat)
    (hiat : C.lookup "iat" = none) (hexp : C.lookup "exp" = none)
    (hnbf : C.lookup "nbf" = none) :
    DEFAULT_EXPIRES_IN = 7 * 24 * 60 * 60 ∧
    signedTokenExp secret C now none =
      some ((now : Int) + (DEFAULT_EXPIRES_IN : Int)) ∧
    (∀ n : Nat, signedTokenExp secret C now (some (SignOptions.mk (some n))) =
      some ((now : Int) + (n : Int))) := by
  refine ⟨by decide, ?_, ?_⟩
  · rw [signedTokenExp, signSession_fresh secret C now none hiat hexp hnbf]
    show embeddedExp (tokenOf secret (C ++ [("iat", JVal.jnum (now : Int)),
      ("exp", JVal.jnum ((now : Int) + (effectiveExpiresIn none : Int)))])) =
      some ((now : Int) + (DEFAULT_EXPIRES_IN : Int))
    rw [embeddedExp_tokenOf]
    have hexp2 : (C ++ [("iat", JVal.jnum (now : Int)),
        ("exp", JVal.jnum ((now : Int) + (effectiveExpiresIn none : Int)))]).lookup "exp" =
        some (JVal.jnum ((now : Int) + (effectiveExpiresIn none : Int))) := by
      rw [lookup_append_none _ _ _ hexp]
      rfl
    rw [hexp2]
    rfl
  · intro n
    rw [signedTokenExp,
      signSession_fresh secret C now (some (SignOptions.mk (some n))) hiat hexp hnbf]
    show embeddedExp (tokenOf secret (C ++ [("iat", JVal.jnum (now : Int)),
      ("exp", JVal.jnum ((now : Int) +
        (effectiveExpiresIn (some (SignOptions.mk (some n))) : Int)))])) =
      some ((now : Int) + (n : Int))
    rw [embeddedExp_tokenOf]
    have hexp2 : (C ++ [("iat", JVal.jnum (now : Int)),
        ("exp", JVal.jnum ((now : Int) +
          (effectiveExpiresIn (some (SignOptions.mk (some n))) : Int)))]).lookup "exp" =
        some (JVal.jnum ((now : Int) +
          (effectiveExpiresIn (some (SignOptions.mk (some n))) : Int))) := by
      rw [lookup_append_none _ _ _ hexp]
      rfl
    rw [hexp2]
    rfl

/-- C4 witness: the default and an override at concrete inputs. -/
theorem c4_expiry_witness :
    (List.lookup "iat" ([("userId", JVal.jstr "u1")] : Claims) = none) ∧
    (List.lookup "exp" ([("userId", JVal.jstr "u1")] : Claims) = none) ∧
    (List.lookup "nbf" ([("userId", JVal.jstr "u1")] : Claims) = none) ∧
    signedTokenExp "dev-secret" [("userId", JVal.jstr "u1")] 10 none =
      some 604810 ∧
    signedTokenExp "dev-secret" [("userId", JVal.jstr "u1")] 10
      (some (SignOptions.mk (some 60))) = some 70 := by
  have h := c4_expiry "dev-secret" [("userId", JVal.jstr "u1")] 10
    (by decide) (by decide) (by decide)
  refine ⟨by decide, by decide, by decide, ?_, ?_⟩
  · have h1 := h.2.1
    simpa [DEFAULT_EXPIRES_IN] using h1
  · have h2 := h.2.2 60
    simpa using h2
/-- C6: changing any single character of the payload segment of a
correctly signed token (without recomputing the signature) makes
verification return the invalid result.  Every valid token has this
`header.payload.signature` shape with dot-free segments; the change may
even introduce a `.`, which breaks the three-segment structure instead of
the signature. -/
theorem c6_tamper (secret header payload : String) (now : Nat) (i : Nat) (c : Char)
    (hh : '.' ∉ header.data) (hp : '.' ∉ payload.data)
    (hi : i < payload.data.length)
    (hc : c ≠ payload.data[i]) :
    verifySession secret
      (header ++ "." ++ String.mk (payload.data.set i c) ++ "." ++
        hmacSHA256 secret (header ++ "." ++ payload)) now = none := by
  have hset : payload.data.set i c =
      payload.data.take i ++ c :: payload.data.drop (i + 1) :=
    List.set_eq_take_cons_drop c hi
  by_cases hdot : c = '.'
  · subst hdot
    have htake : '.' ∉ payload.data.take i :=
      fun hmem => hp (List.mem_of_mem_take hmem)
    have hdrop : '.' ∉ payload.data.drop (i + 1) :=
      fun hmem => hp (List.mem_of_mem_drop hmem)
    have hdata : (header ++ "." ++ String.mk (payload.data.set i '.') ++ "." ++
        hmacSHA256 secret (header ++ "." ++ payload)).data =
        header.data ++ '.' :: (payload.data.take i ++ '.' ::
          (payload.data.drop (i + 1) ++ '.' ::
            (hmacSHA256 secret (header ++ "." ++ payload)).data)) := by
      simp [str_data_append, dot_data, hset]
    unfold verifySession
    rw [hdata, splitDots_append _ _ hh, splitDots_append _ _ htake,
      splitDots_append _ _ hdrop,
      splitDots_no_dot _ (hmacSHA256_no_dot secret (header ++ "." ++ payload))]
  · have hp' : '.' ∉ payload.data.set i c := by
      rw [hset]
      intro hmem
      rcases List.mem_append.mp hmem with hmem | hmem
      · exact hp (List.mem_of_mem_take hmem)
      · rcases List.mem_cons.mp hmem with hEq | hmem
        · exact hdot hEq.symm
        · exact hp (List.mem_of_mem_drop hmem)
    have hdata : (header ++ "." ++ String.mk (payload.data.set i c) ++ "." ++
        hmacSHA256 secret (header ++ "." ++ payload)).data =
        header.data ++ '.' :: (payload.data.set i c ++ '.' ::
          (hmacSHA256 secret (header ++ "." ++ payload)).data) := by
      simp [str_data_append, dot_data]
    have hsplit : splitDots ((header ++ "." ++ String.mk (payload.data.set i c) ++ "." ++
        hmacSHA256 secret (header ++ "." ++ payload)).data) =
        [header.data, payload.data.set i c,
          (hmacSHA256 secret (header ++ "." ++ payload)).data] := by
      rw [hdata, splitDots_append _ _ hh, splitDots_append _ _ hp',
        splitDots_no_dot _ (hmacSHA256_no_dot secret (header ++ "." ++ payload))]
    have hsigne : hmacSHA256 secret (header ++ "." ++ String.mk (payload.data.set i c)) ≠
        hmacSHA256 secret (header ++ "." ++ payload) := by
      intro hEq
      have hmsg := (hmacSHA256_inj hEq).2
      have hdd : header.data ++ '.' :: payload.data.set i c =
          header.data ++ '.' :: payload.data := by
        have := congrArg String.data hmsg
        simpa [str_data_append, dot_data] using this
      have hpp : payload.data.set i c = payload.data := by
        have h2 := List.append_cancel_left hdd
        injection h2
      have hgot : payload.data[i] = c := by
        have hi2 : i < payload.length := hi
        have h1 : (payload.data.set i c)[i]? = some c := by
          simp [List.getElem?_set, hi, hi2]
        rw [hpp] at h1
        have h2 : payload.data[i]? = some (payload.data[i]) := List.getElem?_eq_getElem hi
        rw [h2] at h1
        exact (Option.some.injEq _ _).mp h1
      exact hc hgot.symm
    simp only [verifySession, hsplit, string_mk_data]
    rw [if_neg hsigne]

/-- C6 witness: tampering with the first payload character of a concrete
issued token. -/
theorem c6_tamper_witness :
    ('.' ∉ JWT_HEADER.data) ∧
    ('.' ∉ (encodePayload [("userId", JVal.jstr "u1"), ("iat", JVal.jnum 0),
        ("exp", JVal.jnum 604800)]).data) ∧
    (0 < (encodePayload [("userId", JVal.jstr "u1"), ("iat", JVal.jnum 0),
        ("exp", JVal.jnum 604800)]).data.length) ∧
    verifySession "dev-secret"
      (JWT_HEADER ++ "." ++
        String.mk ((encodePayload [("userId", JVal.jstr "u1"), ("iat", JVal.jnum 0),
          ("exp", JVal.jnum 604800)]).data.set 0 'Z') ++ "." ++
        hmacSHA256 "dev-secret" (JWT_HEADER ++ "." ++
          encodePayload [("userId", JVal.jstr "u1"), ("iat", JVal.jnum 0),
            ("exp", JVal.jnum 604800)])) 5 = none := by
  refine ⟨by decide, by decide, by decide, ?_⟩
  exact c6_tamper "dev-secret" JWT_HEADER
    (encodePayload [("userId", JVal.jstr "u1"), ("iat", JVal.jnum 0),
      ("exp", JVal.jnum 604800)])
    5 0 'Z' (by decide) (by decide) (by decide) (by decide)

/-- C7 counterexample: issuance is not total: a serializable payload that
already carries an `exp` claim makes `jwt.sign` throw (the merged options
always set `expiresIn`), as does a non-numeric registered claim. -/
theorem c7_counterexample :
    signSession "dev-secret" [("userId", JVal.jstr "u1"), ("exp", JVal.jnum 9999999999)]
        0 none =
      .error "Bad \"options.expiresIn\" option the payload already has an \"exp\" property." ∧
    signSession "dev-secret" [("iat", JVal.jstr "later")] 0 none =
      .error "\"iat\" should be a number of seconds" := by
  refine ⟨by decide, by decide⟩

/-- C7 (amended): issuance succeeds exactly on the error-free payloads:
for every claims mapping whose `iat` and `nbf` entries (if any) are
numeric and which carries no `exp` entry, `signSession` returns a
nonempty three-segment token string; a payload already carrying `exp`, or
a non-numeric registered claim, is a thrown error that propagates to the
caller. -/
theorem c7_sign_total (secret : String) (C : Claims) (now : Nat)
    (opts : Option SignOptions)
    (hiat : isNumClaim (C.lookup "iat") = true)
    (hnbf : isNumClaim (C.lookup "nbf") = true)
    (hexp : C.lookup "exp" = none) :
    ∃ tok, signSession secret C now opts = .ok tok ∧
      (splitDots tok.data).length = 3 ∧ tok ≠ "" := by
  obtain ⟨tok, hok⟩ := signSession_isOk secret C now opts hiat hnbf hexp
  obtain ⟨full, rfl⟩ := signSession_ok_shape hok
  refine ⟨_, hok, ?_, ?_⟩
  · rw [splitDots_tokenOf]
    rfl
  · intro hEq
    have hsp := splitDots_tokenOf secret full
    rw [hEq] at hsp
    have h0 : splitDots ("" : String).data = [[]] := rfl
    rw [h0] at hsp
    exact absurd (congrArg List.length hsp) (by simp)

/-- C7 witness: issuance at a concrete registered-claims-free mapping. -/
theorem c7_sign_total_witness :
    (isNumClaim (List.lookup "iat" ([("userId", JVal.jstr "u1")] : Claims)) = true) ∧
    (isNumClaim (List.lookup "nbf" ([("userId", JVal.jstr "u1")] : Claims)) = true) ∧
    (List.lookup "exp" ([("userId", JVal.jstr "u1")] : Claims) = none) ∧
    ∃ tok, signSession "dev-secret" [("userId", JVal.jstr "u1")] 0 none = .ok tok ∧
      (splitDots tok.data).length = 3 ∧ tok ≠ "" := by
  refine ⟨by decide, by decide, by decide, ?_⟩
  exact c7_sign_total "dev-secret" [("userId", JVal.jstr "u1")] 0 none
    (by decide) (by decide) (by decide)

/-- C8 counterexample: a payload that pins `iat` determines the whole
token, so two different issuance times give the identical token string. -/
theorem c8_counterexample :
    (signSession "dev-secret" [("userId", JVal.jstr "u1"), ("iat", JVal.jnum 999)]
      0 none).isOk = true ∧
    signSession "dev-secret" [("userId", JVal.jstr "u1"), ("iat", JVal.jnum 999)]
        0 none =
      signSession "dev-secret" [("userId", JVal.jstr "u1"), ("iat", JVal.jnum 999)]
        5 none := by
  refine ⟨by decide, by decide⟩

/-- C8 (amended): for claims without registered `iat`/`exp`/`nbf` entries
(as the payloads this program signs are), tokens issued at two different
times have different string representations and each verifies until its
own expiry; a payload that pins a nonzero numeric `iat` instead yields
the same token at any issuance time. -/
theorem c8_distinct_tokens (secret : String) (C : Claims) (now₁ now₂ : Nat)
    (opts : Option SignOptions) (now₁' now₂' : Nat)
    (hne : now₁ ≠ now₂)
    (hiat : C.lookup "iat" = none) (hexp : C.lookup "exp" = none)
    (hnbf : C.lookup "nbf" = none)
    (h₁ : now₁' < now₁ + effectiveExpiresIn opts)
    (h₂ : now₂' < now₂ + effectiveExpiresIn opts) :
    signSession secret C now₁ opts ≠ signSession secret C now₂ opts ∧
    ∃ tok₁ tok₂,
      signSession secret C now₁ opts = .ok tok₁ ∧
      signSession secret C now₂ opts = .ok tok₂ ∧
      verifySession secret tok₁ now₁' =
        some (C ++ [("iat", JVal.jnum (now₁ : Int)),
          ("exp", JVal.jnum ((now₁ : Int) + (effectiveExpiresIn opts : Int)))]) ∧
      verifySession secret tok₂ now₂' =
        some (C ++ [("iat", JVal.jnum (now₂ : Int)),
          ("exp", JVal.jnum ((now₂ : Int) + (effectiveExpiresIn opts : Int)))]) := by
  have hs₁ := signSession_fresh secret C now₁ opts hiat hexp hnbf
  have hs₂ := signSession_fresh secret C now₂ opts hiat hexp hnbf
  refine ⟨?_, _, _, hs₁, hs₂, ?_, ?_⟩
  · intro hEq
    rw [hs₁, hs₂] at hEq
    have htok := Except.ok.inj hEq
    have e₁ := embeddedExp_tokenOf secret (C ++ [("iat", JVal.jnum (now₁ : Int)),
      ("exp", JVal.jnum ((now₁ : Int) + (effectiveExpiresIn opts : Int)))])
    have e₂ := embeddedExp_tokenOf secret (C ++ [("iat", JVal.jnum (now₂ : Int)),
      ("exp", JVal.jnum ((now₂ : Int) + (effectiveExpiresIn opts : Int)))])
    rw [htok] at e₁
    rw [e₂] at e₁
    have hl₁ : (C ++ [("iat", JVal.jnum (now₁ : Int)),
        ("exp", JVal.jnum ((now₁ : Int) + (effectiveExpiresIn opts : Int)))]).lookup "exp" =
        some (JVal.jnum ((now₁ : Int) + (effectiveExpiresIn opts : Int))) := by
      rw [lookup_append_none _ _ _ hexp]
      rfl
    have hl₂ : (C ++ [("iat", JVal.jnum (now₂ : Int)),
        ("exp", JVal.jnum ((now₂ : Int) + (effectiveExpiresIn opts : Int)))]).lookup "exp" =
        some (JVal.jnum ((now₂ : Int) + (effectiveExpiresIn opts : Int))) := by
      rw [lookup_append_none _ _ _ hexp]
      rfl
    rw [hl₁, hl₂] at e₁
    have hint : (now₂ : Int) + (effectiveExpiresIn opts : Int) =
        (now₁ : Int) + (effectiveExpiresIn opts : Int) := by
      simpa using e₁
    omega
  · rw [verify_fresh secret C now₁ opts now₁' hexp hnbf, if_pos h₁]
  · rw [verify_fresh secret C now₂ opts now₂' hexp hnbf, if_pos h₂]

/-- C8 witness: two concrete issuance times for the same claims. -/
theorem c8_distinct_tokens_witness :
    ((0 : Nat) ≠ 5) ∧
    (List.lookup "iat" ([("userId", JVal.jstr "u1")] : Claims) = none) ∧
    (List.lookup "exp" ([("userId", JVal.jstr "u1")] : Claims) = none) ∧
    (List.lookup "nbf" ([("userId", JVal.jstr "u1")] : Claims) = none) ∧
    (1 < 0 + effectiveExpiresIn none) ∧ (6 < 5 + effectiveExpiresIn none) ∧
    (signSession "dev-secret" [("userId", JVal.jstr "u1")] 0 none ≠
      signSession "dev-secret" [("userId", JVal.jstr "u1")] 5 none) ∧
    ∃ tok₁ tok₂,
      signSession "dev-secret" [("userId", JVal.jstr "u1")] 0 none = .ok tok₁ ∧
      signSession "dev-secret" [("userId", JVal.jstr "u1")] 5 none = .ok tok₂ ∧
      verifySession "dev-secret" tok₁ 1 =
        some [("userId", JVal.jstr "u1"), ("iat", JVal.jnum 0),
              ("exp", JVal.jnum 604800)] ∧
      verifySession "dev-secret" tok₂ 6 =
        some [("userId", JVal.jstr "u1"), ("iat", JVal.jnum 5),
              ("exp", JVal.jnum 604805)] := by
  have h := c8_distinct_tokens "dev-secret" [("userId", JVal.jstr "u1")] 0 5 none 1 6
    (by decide) (by decide) (by decide) (by decide) (by decide) (by decide)
  obtain ⟨hne, tok₁, tok₂, hok₁, hok₂, hv₁, hv₂⟩ := h
  refine ⟨by decide, by decide, by decide, by decide, by decide, by decide, hne,
    tok₁, tok₂, hok₁, hok₂, ?_, ?_⟩
  · simpa [effectiveExpiresIn, DEFAULT_EXPIRES_IN] using hv₁
  · simpa [effectiveExpiresIn, DEFAULT_EXPIRES_IN] using hv₂
/-! ### The process secret

Model of `const SECRET = process.env.BETTER_AUTH_SECRET ??
process.env.SESSION_SECRET ?? "dev-secret"`: the environment is a partial
map from variable names to values, read once at module initialization, so
the secret is a pure function of the process environment. -/

/-- The process-wide signing secret as the session module computes it. -/
def SECRET (env : String → Option String) : String :=
  match env "BETTER_AUTH_SECRET" with
  | some v => v
  | none =>
    match env "SESSION_SECRET" with
    | some v => v
    | none => "dev-secret"

/-- An environment in which only the secondary variable is set. -/
def envSessionOnly : String → Option String :=
  fun k => if k = "SESSION_SECRET" then some "session-only-secret" else none

/-- C5 counterexample: the secret is not supplied by one environment
variable with a fixed fallback: with `BETTER_AUTH_SECRET` absent, a second
variable (`SESSION_SECRET`) supplies the secret instead of the fixed
development value. -/
theorem c5_counterexample :
    envSessionOnly "BETTER_AUTH_SECRET" = none ∧
    SECRET envSessionOnly = "session-only-secret" ∧
    SECRET envSessionOnly ≠ "dev-secret" := by
  refine ⟨by decide, by decide, by decide⟩

/-- C5 (amended): the secret is drawn from two environment variables in
order, `BETTER_AUTH_SECRET` then `SESSION_SECRET`, and falls back to the
fixed development value only when both are absent; it is a pure function
of the process environment (fixed for the life of the process). -/
theorem c5_secret_chain (env : String → Option String) :
    (∀ v, env "BETTER_AUTH_SECRET" = some v → SECRET env = v) ∧
    (env "BETTER_AUTH_SECRET" = none →
      ∀ v, env "SESSION_SECRET" = some v → SECRET env = v) ∧
    (env "BETTER_AUTH_SECRET" = none → env "SESSION_SECRET" = none →
      SECRET env = "dev-secret") := by
  refine ⟨?_, ?_, ?_⟩
  · intro v hv
    simp [SECRET, hv]
  · intro h1 v hv
    simp [SECRET, h1, hv]
  · intro h1 h2
    simp [SECRET, h1, h2]

/-- C5 witness: all three links of the chain at concrete environments. -/
theorem c5_secret_chain_witness :
    SECRET (fun k => if k = "BETTER_AUTH_SECRET" then some "prod-secret" else none) =
      "prod-secret" ∧
    SECRET envSessionOnly = "session-only-secret" ∧
    SECRET (fun _ => none) = "dev-secret" := by
  refine ⟨(c5_secret_chain _).1 "prod-secret" (by decide),
    (c5_secret_chain envSessionOnly).2.1 (by decide) "session-only-secret" (by decide),
    (c5_secret_chain _).2.2 rfl rfl⟩
/-! ### HTTP route handlers

Models of the login, register and logout POST handlers under
`src/app/api/auth`.  The database (`prisma.user.findUnique` keyed by
email, and the id the database generates on create) and `bcrypt.compare`
are abstract inputs; the zod request schema is modelled by its boolean
outcome. -/

/-- A stored user row, as the login route reads it. -/
structure UserRec where
  id : String
  email : String
  password : Option String
deriving DecidableEq

/-- The slice of an HTTP response the auth routes produce: status code,
JSON body fields, and the optional Set-Cookie header. -/
structure ApiResponse where
  status : Nat
  success : Bool
  error : Option String
  dataIdEmail : Option (String × String)
  setCookie : Option String
deriving DecidableEq

/-- The single 400 response of the login route for every failed
credential check. -/
def invalidCredsResp : ApiResponse :=
  ⟨400, false, some "Invalid email or password", none, none⟩

/-- The cookie lifetime written into the Set-Cookie template. -/
def SESSION_COOKIE_MAX_AGE : Nat := 60 * 60 * 24 * 7

/-- The Set-Cookie header attached on successful login. -/
def loginSetCookie (token : String) : String :=
  "app_session=" ++ token ++ "; HttpOnly; Path=/; Max-Age=" ++
    toString SESSION_COOKIE_MAX_AGE

/-- The Set-Cookie header attached on successful registration (the same
template, duplicated in the source). -/
def registerSetCookie (token : String) : String :=
  "app_session=" ++ token ++ "; HttpOnly; Path=/; Max-Age=" ++
    toString SESSION_COOKIE_MAX_AGE

/-- The login POST handler after request parsing: look the user up by
email; a missing user, a user without a stored password, and a failed
bcrypt comparison all answer with the same 400; a match signs
`{userId, email}` and attaches the session cookie.  A `signSession` throw
would land in the route's catch-all 400 (it cannot for these payloads). -/
def loginPOST (db : String → Option UserRec)
    (bcryptCompare : String → String → Bool)
    (secret : String) (now : Nat) (email password : String) : ApiResponse :=
  match db email with
  | none => invalidCredsResp
  | some user =>
    match user.password with
    | none => invalidCredsResp
    | some hash =>
      if bcryptCompare password hash then
        match signSession secret
            [("userId", JVal.jstr user.id), ("email", JVal.jstr user.email)]
            now none with
        | .ok token =>
          ⟨200, true, none, some (user.id, user.email),
            some (loginSetCookie token)⟩
        | .error msg => ⟨400, false, some msg, none, none⟩
      else invalidCredsResp

/-- The boolean outcome of the zod login schema
(an email-shaped address and a nonempty password); zod's exact email
grammar is abstracted, only the outcome matters to the theorems. -/
def loginSchemaOk (email password : String) : Bool :=
  email.data.contains '@' && decide (1 ≤ password.length)

/-- The login route: zod validation, then the credential check; a parse
failure is caught and answered 400 (with the thrown error's message,
abstracted here). -/
def loginRoute (db : String → Option UserRec)
    (bcryptCompare : String → String → Bool)
    (secret : String) (now : Nat) (email password : String) : ApiResponse :=
  if loginSchemaOk email password then
    loginPOST db bcryptCompare secret now email password
  else ⟨400, false, some "Invalid request", none, none⟩

/-- The register POST handler after parsing: an existing email is
rejected; otherwise the user is created (`newId` stands for the id the
database generates) and the session cookie attached. -/
def registerPOST (db : String → Option UserRec) (newId : String)
    (secret : String) (now : Nat) (email : String) : ApiResponse :=
  match db email with
  | some _ => ⟨400, false, some "Email already registered", none, none⟩
  | none =>
    match signSession secret
        [("userId", JVal.jstr newId), ("email", JVal.jstr email)] now none with
    | .ok token =>
      ⟨200, true, none, some (newId, email), some (registerSetCookie token)⟩
    | .error msg => ⟨400, false, some msg, none, none⟩

/-- The arguments of the cookie-clearing `cookieStore.set` call of the
logout handler. -/
structure ClearCookie where
  name : String
  value : String
  httpOnly : Bool
  secure : Bool
  sameSite : String
  path : String
  expiresEpochMs : Nat
deriving DecidableEq

/-- The logout POST handler: it sets the session cookie to the empty value
with `expires: new Date(0)` (immediate expiry); it takes no token and
never invokes the verifier. -/
def logoutPOST (productionEnv : Bool) : ClearCookie :=
  ⟨"app_session", "", true, productionEnv, "lax", "/", 0⟩

/-- C9: on successful login and successful registration the issued token
is attached as the HTTP-only `app_session` cookie scoped to `/` whose
Max-Age (604800 seconds) equals the token's default 7-day validity
window; the logout handler clears the cookie with an empty value and
immediate expiry, consulting no verifier. -/
theorem c9_cookie (db : String → Option UserRec)
    (bcryptCompare : String → String → Bool) (secret : String) (now : Nat)
    (email password regEmail newId : String) (user : UserRec) (hash : String)
    (prodEnv : Bool)
    (hdb : db email = some user) (hpw : user.password = some hash)
    (hcmp : bcryptCompare password hash = true) (hreg : db regEmail = none) :
    (∃ token, signSession secret
        [("userId", JVal.jstr user.id), ("email", JVal.jstr user.email)] now none =
          .ok token ∧
      (loginPOST db bcryptCompare secret now email password).setCookie =
        some ("app_session=" ++ token ++ "; HttpOnly; Path=/; Max-Age=" ++
          toString SESSION_COOKIE_MAX_AGE)) ∧
    (∃ token, signSession secret
        [("userId", JVal.jstr newId), ("email", JVal.jstr regEmail)] now none =
          .ok token ∧
      (registerPOST db newId secret now regEmail).setCookie =
        some ("app_session=" ++ token ++ "; HttpOnly; Path=/; Max-Age=" ++
          toString SESSION_COOKIE_MAX_AGE)) ∧
    toString SESSION_COOKIE_MAX_AGE = "604800" ∧
    SESSION_COOKIE_MAX_AGE = DEFAULT_EXPIRES_IN ∧
    logoutPOST prodEnv = ⟨"app_session", "", true, prodEnv, "lax", "/", 0⟩ := by
  have hs₁ := signSession_fresh secret
    [("userId", JVal.jstr user.id), ("email", JVal.jstr user.email)] now none
    rfl rfl rfl
  have hs₂ := signSession_fresh secret
    [("userId", JVal.jstr newId), ("email", JVal.jstr regEmail)] now none
    rfl rfl rfl
  refine ⟨⟨_, hs₁, ?_⟩, ⟨_, hs₂, ?_⟩, by decide, by decide, rfl⟩
  · simp [loginPOST, hdb, hpw, hcmp, hs₁, loginSetCookie]
  · simp [registerPOST, hreg, hs₂, registerSetCookie]

/-- A concrete stored user for the route witnesses. -/
def demoUser : UserRec := ⟨"u1", "a@b.com", some "HASH"⟩

/-- A concrete user stored without a password. -/
def noPasswordUser : UserRec := ⟨"u2", "n@p.com", none⟩

/-- A concrete two-user database keyed by email. -/
def demoDb : String → Option UserRec :=
  fun e =>
    if e = "a@b.com" then some demoUser
    else if e = "n@p.com" then some noPasswordUser
    else none

/-- C9 witness: concrete login success, registration success and logout. -/
theorem c9_cookie_witness :
    demoDb "a@b.com" = some demoUser ∧
    demoUser.password = some "HASH" ∧
    (fun _ _ : String => true) "pw" "HASH" = true ∧
    demoDb "new@user.com" = none ∧
    (∃ token, signSession "dev-secret"
        [("userId", JVal.jstr "u1"), ("email", JVal.jstr "a@b.com")] 0 none =
          .ok token ∧
      (loginPOST demoDb (fun _ _ => true) "dev-secret" 0 "a@b.com" "pw").setCookie =
        some ("app_session=" ++ token ++ "; HttpOnly; Path=/; Max-Age=" ++
          toString SESSION_COOKIE_MAX_AGE)) ∧
    (∃ token, signSession "dev-secret"
        [("userId", JVal.jstr "u9"), ("email", JVal.jstr "new@user.com")] 0 none =
          .ok token ∧
      (registerPOST demoDb "u9" "dev-secret" 0 "new@user.com").setCookie =
        some ("app_session=" ++ token ++ "; HttpOnly; Path=/; Max-Age=" ++
          toString SESSION_COOKIE_MAX_AGE)) ∧
    logoutPOST false = ⟨"app_session", "", true, false, "lax", "/", 0⟩ := by
  have h := c9_cookie demoDb (fun _ _ => true) "dev-secret" 0 "a@b.com" "pw"
    "new@user.com" "u9" demoUser "HASH" false
    (by decide) (by decide) rfl (by decide)
  exact ⟨by decide, by decide, rfl, by decide, h.1, h.2.1, h.2.2.2.2⟩

/-- C10: for a schema-valid request, an unknown email, a stored user with
no password, and a failed password comparison all produce literally the
same response (status 400, body message "Invalid email or password",
no data, no cookie): the causes are indistinguishable to the caller. -/
theorem c10_login_uniform_failure (db : String → Option UserRec)
    (bcryptCompare : String → String → Bool) (secret : String) (now : Nat)
    (email password : String) (hschema : loginSchemaOk email password = true) :
    (db email = none →
      loginRoute db bcryptCompare secret now email password = invalidCredsResp) ∧
    (∀ user, db email = some user → user.password = none →
      loginRoute db bcryptCompare secret now email password = invalidCredsResp) ∧
    (∀ user hash, db email = some user → user.password = some hash →
      bcryptCompare password hash = false →
      loginRoute db bcryptCompare secret now email password = invalidCredsResp) ∧
    invalidCredsResp.status = 400 ∧
    invalidCredsResp.error = some "Invalid email or password" := by
  refine ⟨?_, ?_, ?_, rfl, rfl⟩
  · intro h
    simp [loginRoute, hschema, loginPOST, h]
  · intro user h hp
    simp [loginRoute, hschema, loginPOST, h, hp]
  · intro user hash h hp hb
    simp [loginRoute, hschema, loginPOST, h, hp, hb]

/-- C10 witness: the three failure causes at concrete requests, all
yielding the identical response. -/
theorem c10_login_uniform_failure_witness :
    loginSchemaOk "x@y.zz" "pw" = true ∧
    loginSchemaOk "n@p.com" "pw" = true ∧
    loginSchemaOk "a@b.com" "pw" = true ∧
    loginRoute demoDb (fun _ _ => false) "dev-secret" 0 "x@y.zz" "pw" =
      invalidCredsResp ∧
    loginRoute demoDb (fun _ _ => false) "dev-secret" 0 "n@p.com" "pw" =
      invalidCredsResp ∧
    loginRoute demoDb (fun _ _ => false) "dev-secret" 0 "a@b.com" "pw" =
      invalidCredsResp := by
  refine ⟨by decide, by decide, by decide, ?_, ?_, ?_⟩
  · exact (c10_login_uniform_failure demoDb (fun _ _ => false) "dev-secret" 0
      "x@y.zz" "pw" (by decide)).1 (by decide)
  · exact (c10_login_uniform_failure demoDb (fun _ _ => false) "dev-secret" 0
      "n@p.com" "pw" (by decide)).2.1 noPasswordUser (by decide) (by decide)
  · exact (c10_login_uniform_failure demoDb (fun _ _ => false) "dev-secret" 0
      "a@b.com" "pw" (by decide)).2.2.1 demoUser "HASH" (by decide) (by decide) rfl
